import Mathlib

/-!
Verification of the DeepCogs Collection Retrieval & Comparative Analytics
Engine against its natural-language specification.

The definitions below are a shallow embedding of the TypeScript source:

* the genre-gap analyzer of the recommendations route (`MAJOR_GENRES`,
  `gapsOf`, `topGenresOf`, `genresToSearch`);
* the "artist - title" parser of the recommendation search results
  (`jsSplit`, `parseArtistTitle`);
* the collection comparator and compatibility score of the friend-compare
  component (`overlapIds`, `overlapOf`, `onlyMe`, `onlyFriend`,
  `compatibilityScore`);
* the trade matcher (`wantIds`, `offers`, `runTrades`);
* the paginated collection fetcher (`pagesToFetch`, `fetchPages`,
  `fetchCollection`).

JavaScript-specific semantics are modelled explicitly: a missing or zero
`master_id` is represented by `0` (the source treats both as falsy and as
"no grouping key"), `Math.round` is `jsRound` (round half toward plus
infinity), `[...new Set(l)]` is `jsSetDedup` (first-occurrence
deduplication in order), and `String.prototype.split` on a fixed
separator is `jsSplit` over character lists.
-/

namespace DeepCogs

/-- A collection item (DiscogsRelease basic information restricted to the
fields the analytics engine reads). `masterId = 0` encodes a null/absent
master id, which the source treats as "no grouping key". `rid` is the
release/instance id distinguishing physical items. -/
structure Release where
  rid : Nat
  masterId : Nat
  deriving DecidableEq, Repr

/-- A wantlist entry, keyed like a release by its (possibly absent)
master id. -/
structure Want where
  wid : Nat
  masterId : Nat
  deriving DecidableEq, Repr

/-- One entry of the genre tally sent to the recommendations route:
a genre name with its occurrence count. -/
structure GenreCount where
  name : String
  count : Nat
  deriving DecidableEq, Repr

/-- The fixed reference list of major genres, in its declared order
(source: `MAJOR_GENRES` in the recommendations route). -/
def MAJOR_GENRES : List String :=
  [ "Electronic",
    "Rock",
    "Jazz",
    "Hip Hop",
    "Classical",
    "Folk, World, & Country",
    "Funk / Soul",
    "Pop",
    "Reggae",
    "Blues",
    "Latin",
    "Stage & Screen" ]

/-- Sum of all tally counts (source: `genres.reduce((sum, g) => sum + g.count, 0)`). -/
def totalReleases (tally : List GenreCount) : Nat :=
  tally.foldl (fun sum g => sum + g.count) 0

/-- The JavaScript comparison `(count / total) * 100 < 10` for natural
counts. When `total = 0` the quotient is `NaN` (all counts are then `0`),
and `NaN < 10` is `false`; when `total > 0` the comparison agrees with
the exact rational one, `100 * count < 10 * total`. -/
def percLt10 (count total : Nat) : Bool :=
  if total = 0 then false else 100 * count < 10 * total

/-- Whether a major genre qualifies as a gap for a tally (source: the
filter predicate `!userGenre || userGenre.percentage < 10`, where
`userGenre` is the first tally entry with that name). -/
def isGap (tally : List GenreCount) (genre : String) : Bool :=
  match tally.find? (fun g => g.name = genre) with
  | none => true
  | some g => percLt10 g.count (totalReleases tally)

/-- The gap set computed by the recommendations route:
`MAJOR_GENRES.filter(...).slice(0, 3)`. -/
def gapsOf (tally : List GenreCount) : List String :=
  (MAJOR_GENRES.filter (isGap tally)).take 3

/-- The top-genre list: tally entries whose name is a major genre, in
tally order, truncated to 2 (source: `genrePercentages.filter(...).slice(0, 2).map(...)`). -/
def topGenresOf (tally : List GenreCount) : List String :=
  ((tally.filter (fun g => g.name ∈ MAJOR_GENRES)).take 2).map (fun g => g.name)

/-- One step of JavaScript `Set` insertion order: append the element if
it has not been seen. -/
def insertIfNew (acc : List String) (x : String) : List String :=
  if x ∈ acc then acc else acc ++ [x]

/-- The JavaScript idiom `[...new Set(l)]`: deduplication keeping the
first occurrence of each element, in order. -/
def jsSetDedup (l : List String) : List String :=
  l.foldl insertIfNew []

/-- The final genre selection for search (source:
`[...new Set([...gaps, ...topGenres])].slice(0, 4)`). -/
def genresToSearch (tally : List GenreCount) : List String :=
  (jsSetDedup (gapsOf tally ++ topGenresOf tally)).take 4

/-! ### The "artist - title" parser of the recommendation search results

The source destructures `(r.title || "").split(" - ")` into the first
segment and the remaining segments. `jsSplitABT` models exactly that:
a greedy left-to-right split of a character list on every occurrence of
the three-character separator `" - "`, returned as
(first segment, remaining segments). -/

/-- The separator `" - "` as a character list. -/
def sepABT : List Char := [' ', '-', ' ']

/-- JavaScript `s.split(" - ")` destructured as
`const [artist, ...titleParts]`: the first segment and the list of
remaining segments. The separator is consumed greedily left to right. -/
def jsSplitABT : List Char → List Char × List (List Char)
  | [] => ([], [])
  | ' ' :: '-' :: ' ' :: rest =>
      let p := jsSplitABT rest
      ([], p.1 :: p.2)
  | c :: rest =>
      let p := jsSplitABT rest
      (c :: p.1, p.2)

/-- JavaScript `parts.join(" - ")`: the empty list joins to the empty
string, otherwise segments are interleaved with the separator. -/
def joinABT : List (List Char) → List Char
  | [] => []
  | [s] => s
  | s :: rest => s ++ sepABT ++ joinABT rest

/-- The parser applied to each search result's combined string (source:
`const [artist, ...titleParts] = (r.title || "").split(" - ")`, then
`artist: artist || "Unknown Artist"` and
`title: titleParts.join(" - ") || r.title || "Unknown"`).
Returns (artist, title). -/
def parseArtistTitle (raw : List Char) : List Char × List Char :=
  ( if (jsSplitABT raw).1 = [] then "Unknown Artist".data else (jsSplitABT raw).1,
    if joinABT (jsSplitABT raw).2 = [] then (if raw = [] then "Unknown".data else raw)
    else joinABT (jsSplitABT raw).2 )

/-- Split at the first occurrence of `" - "` only: `some (before, after)`
when the separator occurs, `none` otherwise. This is the spec-side
description of the parse ("splitting on the first \x22 - \x22 occurrence"),
to be compared with the source-side `jsSplitABT`. -/
def splitFirstABT : List Char → Option (List Char × List Char)
  | [] => none
  | ' ' :: '-' :: ' ' :: rest => some ([], rest)
  | c :: rest => (splitFirstABT rest).map (fun p => (c :: p.1, p.2))

/-- Modelled from the spec's amended wording: artist is the segment
before the first separator (or the raw string when there is none),
replaced by "Unknown Artist" when empty; title is everything after the
first separator, falling back to the raw string when that is empty, and
to "Unknown" when the raw string is empty too. -/
def parseArtistTitleSpec (raw : List Char) : List Char × List Char :=
  match splitFirstABT raw with
  | none =>
      ( if raw = [] then "Unknown Artist".data else raw,
        if raw = [] then "Unknown".data else raw )
  | some p =>
      ( if p.1 = [] then "Unknown Artist".data else p.1,
        if p.2 = [] then raw else p.2 )

/-! ### Collection comparator (friend-compare component)

Sets of master ids are JavaScript `Set`s; only membership matters, so
they are modelled as `Finset Nat`. A JavaScript falsy master id
(`0`/absent) is modelled as `0`. -/

/-- The set of master ids of a collection (source:
`new Set(coll.map(r => r.basic_information.master_id))`). Note the
null/zero key is NOT dropped here. -/
def idsOf (l : List Release) : Finset Nat :=
  (l.map (fun r => r.masterId)).toFinset

/-- Source: `new Set([...myMasterIds].filter(id => id && friendMasterIds.has(id)))`.
The truthiness test drops the zero key. -/
def overlapIds (mine theirs : List Release) : Finset Nat :=
  (idsOf mine).filter (fun id => id ≠ 0 ∧ id ∈ idsOf theirs)

/-- Source: `myCollection.filter(r => overlapMasterIds.has(r.basic_information.master_id))`. -/
def overlapOf (mine theirs : List Release) : List Release :=
  mine.filter (fun r => r.masterId ∈ overlapIds mine theirs)

/-- Source: `myCollection.filter(r => r.basic_information.master_id && !overlapMasterIds.has(...))`. -/
def onlyMe (mine theirs : List Release) : List Release :=
  mine.filter (fun r => r.masterId ≠ 0 ∧ r.masterId ∉ overlapIds mine theirs)

/-- Source: `friendCollection.filter(r => r.basic_information.master_id && !overlapMasterIds.has(...))`. -/
def onlyFriend (mine theirs : List Release) : List Release :=
  theirs.filter (fun r => r.masterId ≠ 0 ∧ r.masterId ∉ overlapIds mine theirs)

/-- Source: `new Set([...myMasterIds, ...friendMasterIds]).size`. The
zero key again is NOT dropped. -/
def totalUnique (mine theirs : List Release) : Nat :=
  (idsOf mine ∪ idsOf theirs).card

/-- JavaScript `Math.round`: round half toward positive infinity. -/
def jsRound (q : ℚ) : ℤ :=
  ⌊q + 1 / 2⌋

/-- Source: `totalUnique > 0 ? Math.round((overlapMasterIds.size / totalUnique) * 100) : 0`. -/
def compatibilityScore (mine theirs : List Release) : ℤ :=
  if 0 < totalUnique mine theirs then
    jsRound ((((overlapIds mine theirs).card : ℚ) / (totalUnique mine theirs : ℚ)) * 100)
  else 0

/-! ### Trade matcher -/

/-- Source: `new Set(wants.map(w => w.basic_information.master_id).filter(Boolean))`. -/
def wantIds (ws : List Want) : Finset Nat :=
  ((ws.map (fun w => w.masterId)).filter (fun id => id ≠ 0)).toFinset

/-- One direction of the trade matcher (source: `collection.filter(r =>
wantMasterIds.has(r.basic_information.master_id)).map(release =>
({release, matchedWant: wants.find(w => w.basic_information.master_id
=== release.basic_information.master_id)}))`). The `find` result is an
`Option` mirroring JavaScript `undefined` under the `!` assertion. -/
def offers (coll : List Release) (ws : List Want) : List (Release × Option Want) :=
  (coll.filter (fun r => r.masterId ∈ wantIds ws)).map
    (fun r => (r, ws.find? (fun w => w.masterId == r.masterId)))

/-- Outcome of one wantlist fetch: a successful response carrying wants,
a non-ok HTTP response (`response.ok` false, no exception), or a thrown
exception (network failure / rejected promise). -/
inductive FetchOutcome where
  | ok (wants : List Want)
  | httpError
  | thrown
  deriving DecidableEq, Repr

/-- The trade-fetch block of `handleSearch`: both wantlist fetches run
sequentially inside one `try`. A thrown exception jumps to the single
`catch`, keeping whatever list assignments already happened
(`youCanOffer`/`theyCanOffer` are initialised to `[]` before the `try`);
a non-ok response merely skips the corresponding `if` body. Returns
(youCanOffer, theyCanOffer). -/
def runTrades (friendRes myRes : FetchOutcome) (myColl theirColl : List Release) :
    List (Release × Option Want) × List (Release × Option Want) :=
  match friendRes with
  | .thrown => ([], [])
  | .httpError =>
    match myRes with
    | .thrown => ([], [])
    | .httpError => ([], [])
    | .ok mws => ([], offers theirColl mws)
  | .ok fws =>
    let you := offers myColl fws
    match myRes with
    | .thrown => (you, [])
    | .httpError => (you, [])
    | .ok mws => (you, offers theirColl mws)

/-! ### Paginated collection fetcher -/

/-- One page returned by the catalog client: the page's releases and the
service-reported total item count (`pagination.items`). -/
structure Page where
  releases : List Release
  paginationItems : Nat
  deriving DecidableEq, Repr

/-- Source: `Math.min(Math.ceil(total / 100), 5)`. -/
def pagesToFetch (total : Nat) : Nat :=
  min ((total + 99) / 100) 5

/-- Observable events of one collection fetch: a page request, or the
inter-page `setTimeout` delay in milliseconds. -/
inductive FetchEvent where
  | request (page : Nat)
  | delay (ms : Nat)
  deriving DecidableEq, Repr

/-- The successful response body of the collection route:
`{releases, total, fetched: releases.length}`. -/
structure FetchOk where
  releases : List Release
  total : Nat
  fetched : Nat
  deriving DecidableEq, Repr

/-- The page loop `for (let page = 2; page <= pagesToFetch; page++)`:
requests `count` consecutive pages starting at page `p`, in order,
appending each page's releases and sleeping 100 ms after each page. A
failed page request throws; the single surrounding `try/catch` turns
the whole request into the route's error response, modelled as `none`.
Also returns the event trace. -/
def fetchPages (reader : Nat → Option Page) :
    Nat → Nat → List Release → Option (List Release) × List FetchEvent
  | 0, _, acc => (some acc, [])
  | count + 1, p, acc =>
    match reader p with
    | none => (none, [.request p])
    | some pg =>
      let r := fetchPages reader count (p + 1) (acc ++ pg.releases)
      (r.1, .request p :: .delay 100 :: r.2)

/-- The collection route's fetch (source: `GET` of the collection route):
request page 1 to learn `total`, compute `pagesToFetch`, then run the
page loop over pages `2..pagesToFetch` (that is,
`pagesToFetch - 1` pages starting at page 2). Any page failure (page 1
included) yields the route's 500 error response, modelled as `none`. -/
def fetchCollection (reader : Nat → Option Page) : Option FetchOk × List FetchEvent :=
  match reader 1 with
  | none => (none, [.request 1])
  | some fp =>
    let r := fetchPages reader (pagesToFetch fp.paginationItems - 1) 2 fp.releases
    ( r.1.map (fun rel => ⟨rel, fp.paginationItems, rel.length⟩),
      .request 1 :: r.2 )

/-! ## Helper lemmas -/

theorem insertIfNew_append_exists (l : List String) :
    ∀ acc : List String, ∃ r : List String, l.foldl insertIfNew acc = acc ++ r := by
  induction l with
  | nil => exact fun acc => ⟨[], by simp⟩
  | cons x xs ih =>
    intro acc
    by_cases hx : x ∈ acc
    · obtain ⟨r, hr⟩ := ih acc
      exact ⟨r, by simpa [insertIfNew, hx] using hr⟩
    · obtain ⟨r, hr⟩ := ih (acc ++ [x])
      refine ⟨x :: r, ?_⟩
      simp only [List.foldl_cons, insertIfNew, hx, if_false]
      rw [hr]
      simp

theorem foldl_insertIfNew_of_nodup (l : List String) :
    ∀ acc : List String, l.Nodup → (∀ x ∈ l, x ∉ acc) →
      l.foldl insertIfNew acc = acc ++ l := by
  induction l with
  | nil => intro acc _ _; simp
  | cons x xs ih =>
    intro acc hnd hdisj
    have hx : x ∉ acc := hdisj x (by simp)
    simp only [List.foldl_cons, insertIfNew, hx, if_false]
    rw [ih (acc ++ [x]) (List.nodup_cons.mp hnd).2 ?_]
    · simp
    · intro y hy
      simp only [List.mem_append, List.mem_singleton]
      rintro (h | rfl)
      · exact hdisj y (List.mem_cons_of_mem _ hy) h
      · exact (List.nodup_cons.mp hnd).1 hy

theorem major_genres_nodup : MAJOR_GENRES.Nodup := by decide

theorem gapsOf_nodup (tally : List GenreCount) : (gapsOf tally).Nodup :=
  (List.take_sublist 3 _).nodup ((List.filter_sublist MAJOR_GENRES).nodup major_genres_nodup)

theorem gapsOf_length_le (tally : List GenreCount) : (gapsOf tally).length ≤ 3 :=
  List.length_take_le 3 _

/-! ## Claims about the genre analyzer -/

/-- Claim C2, counterexample: the route does not special-case
`totalReleases = 0`. On the empty tally (total 0) the gap set is the
first three major genres, not the empty set the claim demands. -/
theorem c2_counterexample :
    totalReleases ([] : List GenreCount) = 0 ∧
    gapsOf ([] : List GenreCount) = ["Electronic", "Rock", "Jazz"] ∧
    gapsOf ([] : List GenreCount) ≠ [] := by decide

/-- Claim C2 (amended): when the tally's total is zero the computation
still completes without any division error (the JavaScript percentage is
`NaN`, so every `percentage < 10` test is false), and the gap set is the
first at most three major genres absent from the tally — it is the empty
set only when every major genre occurs in the tally. -/
theorem gaps_at_zero_total (tally : List GenreCount)
    (h : totalReleases tally = 0) :
    gapsOf tally =
      (MAJOR_GENRES.filter (fun g => decide (∀ e ∈ tally, e.name ≠ g))).take 3 := by
  unfold gapsOf
  congr 1
  apply List.filter_congr
  intro g _
  unfold isGap
  cases hfind : tally.find? (fun e => e.name = g) with
  | none =>
    have habs : ∀ e ∈ tally, e.name ≠ g := by
      intro e he
      have := List.find?_eq_none.mp hfind e he
      simpa using this
    show true = decide (∀ e ∈ tally, e.name ≠ g)
    rw [eq_comm, decide_eq_true_eq]
    exact habs
  | some e =>
    have he : e ∈ tally := List.mem_of_find?_eq_some hfind
    have hname : e.name = g := by
      have := List.find?_some hfind
      simpa using this
    have hlhs : percLt10 e.count (totalReleases tally) = false := by
      rw [h]; rfl
    show percLt10 e.count (totalReleases tally) = decide (∀ e ∈ tally, e.name ≠ g)
    rw [hlhs, eq_comm, decide_eq_false_iff_not]
    intro habs
    exact habs e he hname

/-- Claim C2 witness for the amended theorem: a tally of `{Rock: 0}` has
total zero, and its gap set is the first three major genres other than
Rock. -/
theorem gaps_at_zero_total_witness :
    gapsOf [⟨"Rock", 0⟩] = ["Electronic", "Jazz", "Hip Hop"] := by
  rw [gaps_at_zero_total [⟨"Rock", 0⟩] (by decide)]
  decide

/-- Claim C10: every genre in the returned gaps list is also in the
returned `analyzedGenres` selection — the at most three gaps are placed
first in the deduplicated union and survive the truncation to four. -/
theorem gaps_in_analyzed_genres (tally : List GenreCount) (g : String)
    (hg : g ∈ gapsOf tally) : g ∈ genresToSearch tally := by
  unfold genresToSearch jsSetDedup
  rw [List.foldl_append,
    foldl_insertIfNew_of_nodup _ [] (gapsOf_nodup tally) (by simp)]
  obtain ⟨r, hr⟩ := insertIfNew_append_exists (topGenresOf tally) ([] ++ gapsOf tally)
  rw [hr]
  simp only [List.nil_append]
  rw [List.take_append_eq_append_take,
    List.take_of_length_le (le_trans (gapsOf_length_le tally) (by norm_num))]
  exact List.mem_append_left _ hg

/-- Claim C10 witness: "Electronic" is a gap of the empty tally and is
indeed among the analyzed genres. -/
theorem gaps_in_analyzed_genres_witness :
    "Electronic" ∈ genresToSearch ([] : List GenreCount) :=
  gaps_in_analyzed_genres [] "Electronic" (by decide)

/-- Claim C7: for a tally with distinct genre names and positive total,
the gap set is exactly the first at most three entries, in declared
order, of the twelve-entry major-genre reference list that are either
absent from the tally or have percentage `100 * count / total` below 10;
it never exceeds three entries and is ordered as a sublist of the
reference list (reference order, not magnitude order). -/
theorem gaps_spec (tally : List GenreCount)
    (hnodup : (tally.map (fun e => e.name)).Nodup)
    (hpos : 0 < totalReleases tally) :
    gapsOf tally =
      (MAJOR_GENRES.filter (fun g => decide ((∀ e ∈ tally, e.name ≠ g) ∨
        ∃ e ∈ tally, e.name = g ∧
          (100 : ℚ) * e.count / (totalReleases tally : ℚ) < 10))).take 3 ∧
    (gapsOf tally).length ≤ 3 ∧
    (gapsOf tally).Sublist MAJOR_GENRES ∧
    MAJOR_GENRES.length = 12 := by
  refine ⟨?_, gapsOf_length_le tally,
    (List.take_sublist 3 _).trans (List.filter_sublist MAJOR_GENRES), by decide⟩
  unfold gapsOf
  congr 1
  apply List.filter_congr
  intro g _
  unfold isGap
  have htQ : (0 : ℚ) < (totalReleases tally : ℚ) := by exact_mod_cast hpos
  cases hfind : tally.find? (fun e => e.name = g) with
  | none =>
    have habs : ∀ e ∈ tally, e.name ≠ g := by
      intro e he
      have := List.find?_eq_none.mp hfind e he
      simpa using this
    show true = _
    rw [eq_comm, decide_eq_true_eq]
    exact Or.inl habs
  | some e =>
    have he : e ∈ tally := List.mem_of_find?_eq_some hfind
    have hname : e.name = g := by
      have := List.find?_some hfind
      simpa using this
    have hiff : ((∀ e' ∈ tally, e'.name ≠ g) ∨
        ∃ e' ∈ tally, e'.name = g ∧
          (100 : ℚ) * e'.count / (totalReleases tally : ℚ) < 10) ↔
        100 * e.count < 10 * totalReleases tally := by
      constructor
      · rintro (habs | ⟨e', he', hn', hlt⟩)

        · exact absurd hname (habs e he)
        · have heq : e' = e :=
            List.inj_on_of_nodup_map hnodup he' he (hn'.trans hname.symm)
          subst heq
          rw [div_lt_iff₀ htQ] at hlt
          have : (100 : ℚ) * e'.count < 10 * totalReleases tally := by linarith
          exact_mod_cast this
      · intro hlt
        refine Or.inr ⟨e, he, hname, ?_⟩
        rw [div_lt_iff₀ htQ]
        have : (100 : ℚ) * e.count < 10 * totalReleases tally := by exact_mod_cast hlt
        linarith
    show percLt10 e.count (totalReleases tally) = _
    unfold percLt10
    rw [if_neg (Nat.pos_iff_ne_zero.mp hpos)]
    rw [decide_eq_decide]
    exact hiff.symm

/-- Claim C7 witness: the tally `{Rock: 100}` (total 100) yields the
gaps `[Electronic, Jazz, Hip Hop]` — the first three reference genres
that are absent or below 10 percent, in reference order. -/
theorem gaps_spec_witness :
    gapsOf [⟨"Rock", 100⟩] = ["Electronic", "Jazz", "Hip Hop"] := by
  rw [(gaps_spec [⟨"Rock", 100⟩] (by decide) (by decide)).1]
  norm_num [MAJOR_GENRES, List.filter, totalReleases]
  decide

/-! ## Claims about the "artist - title" parser -/

theorem joinABT_cons_cons (c : Char) (s : List Char) (ss : List (List Char)) :
    joinABT ((c :: s) :: ss) = c :: joinABT (s :: ss) := by
  cases ss with
  | nil => rfl
  | cons t ts => simp [joinABT]

theorem joinABT_split (l : List Char) :
    joinABT ((jsSplitABT l).1 :: (jsSplitABT l).2) = l := by
  induction l using jsSplitABT.induct with
  | case1 => rfl
  | case2 rest ih =>
    rw [jsSplitABT.eq_2]
    show sepABT ++ joinABT ((jsSplitABT rest).1 :: (jsSplitABT rest).2) = _
    rw [ih]
    rfl
  | case3 c rest hne ih =>
    rw [jsSplitABT.eq_3 c rest hne, joinABT_cons_cons, ih]

theorem jsSplitABT_of_no_sep (l : List Char) (h : splitFirstABT l = none) :
    jsSplitABT l = (l, []) := by
  induction l using jsSplitABT.induct with
  | case1 => rfl
  | case2 rest ih =>
    rw [splitFirstABT.eq_2] at h
    exact absurd h (by simp)
  | case3 c rest hne ih =>
    rw [splitFirstABT.eq_3 c rest hne, Option.map_eq_none'] at h
    rw [jsSplitABT.eq_3 c rest hne, ih h]

theorem jsSplitABT_of_first_sep (l : List Char) (b a : List Char)
    (h : splitFirstABT l = some (b, a)) :
    jsSplitABT l = (b, (jsSplitABT a).1 :: (jsSplitABT a).2) := by
  induction l using jsSplitABT.induct generalizing b a with
  | case1 => exact absurd h (by simp [splitFirstABT])
  | case2 rest ih =>
    rw [splitFirstABT.eq_2] at h
    have hba := Option.some.inj h
    have hb : b = [] := (congrArg Prod.fst hba).symm
    have ha : a = rest := (congrArg Prod.snd hba).symm
    subst hb
    subst ha
    rw [jsSplitABT.eq_2]
  | case3 c rest hne ih =>
    rw [splitFirstABT.eq_3 c rest hne] at h
    cases hr : splitFirstABT rest with
    | none => rw [hr] at h; exact absurd h (by simp)
    | some p =>
      rw [hr] at h
      simp only [Option.map_some'] at h
      obtain ⟨hb, ha⟩ := Prod.mk.injEq .. ▸ Option.some.inj h
      rw [jsSplitABT.eq_3 c rest hne, ih p.1 p.2 (by rw [hr])]
      rw [← hb, ← ha]

/-- Claim C5, counterexample: a combined string with no " - " separator
is parsed with the raw string as the artist, not "Unknown Artist" as the
claim states ("Unknown Artist" only appears when the first segment is
empty). -/
theorem c5_counterexample :
    splitFirstABT "Abbey Road".data = none ∧
    (parseArtistTitle "Abbey Road".data).1 = "Abbey Road".data ∧
    (parseArtistTitle "Abbey Road".data).1 ≠ "Unknown Artist".data := by
  decide

/-- Claim C5 (amended): the combined string is split on the first " - "
occurrence; the artist is the segment before it ("Unknown Artist" when
that segment is empty) and the title is everything after it, falling
back to the raw string when that remainder is empty; when there is no
separator BOTH the artist and the title are the raw string, with
"Unknown Artist"/"Unknown" only for the empty raw string. -/
theorem parse_artist_title_spec (raw : List Char) :
    parseArtistTitle raw = parseArtistTitleSpec raw := by
  unfold parseArtistTitle parseArtistTitleSpec
  cases hsf : splitFirstABT raw with
  | none =>
    rw [jsSplitABT_of_no_sep raw hsf]
    simp [joinABT]
  | some p =>
    have hraw : raw ≠ [] := by
      intro h
      rw [h] at hsf
      exact absurd hsf (by simp [splitFirstABT])
    rw [jsSplitABT_of_first_sep raw p.1 p.2 (by rw [hsf]), joinABT_split p.2]
    by_cases hp2 : p.2 = [] <;> simp [hp2, hraw]

/-! ## Claims about the collection comparator -/

theorem overlapIds_nonzero (mine theirs : List Release) :
    ∀ id ∈ overlapIds mine theirs, id ≠ 0 := by
  intro id hid
  exact ((Finset.mem_filter.mp hid).2).1

theorem length_filter_split (S : Finset Nat) (hS : ∀ id ∈ S, id ≠ 0)
    (l : List Release) :
    (l.filter (fun r => r.masterId ∈ S)).length +
      (l.filter (fun r => r.masterId ≠ 0 ∧ r.masterId ∉ S)).length =
      (l.filter (fun r => r.masterId ≠ 0)).length := by
  induction l with
  | nil => rfl
  | cons x xs ih =>
    simp only [List.filter_cons]
    by_cases hx : x.masterId ∈ S
    · have h0 : x.masterId ≠ 0 := hS _ hx
      rw [if_pos (decide_eq_true hx), if_neg (by simp [hx]),
        if_pos (decide_eq_true h0)]
      simp only [List.length_cons]
      omega
    · by_cases h0 : x.masterId = 0
      · rw [if_neg (by simp [hx]), if_neg (by simp [h0]), if_neg (by simp [h0])]
        exact ih
      · rw [if_neg (by simp [hx]), if_pos (by simp [h0, hx]),
          if_pos (decide_eq_true h0)]
        simp only [List.length_cons]
        omega

/-- Claim C3: the comparator's partitions are pairwise disjoint; every
item of `mine` with a non-null master id lies in exactly one of the
overlap and only-me lists; every item of `theirs` with a non-null
master id either has its master id in the overlap id set (the overlap
LIST itself is drawn from `mine`, so for `theirs` items the overlap
partition is membership of the shared master-id set) or lies in the
only-friend list, never both; items with a null master id are excluded
from every partition; and `|overlap| + |onlyMe|` is the number of items
of `mine` with a non-null master id. -/
theorem comparator_partition (mine theirs : List Release) :
    (∀ r ∈ overlapOf mine theirs, r ∉ onlyMe mine theirs) ∧
    (∀ r ∈ overlapOf mine theirs, r ∉ onlyFriend mine theirs) ∧
    (∀ r ∈ mine, r.masterId ≠ 0 →
      (r ∈ overlapOf mine theirs ↔ r ∉ onlyMe mine theirs)) ∧
    (∀ r ∈ theirs, r.masterId ≠ 0 →
      (r.masterId ∈ overlapIds mine theirs ↔ r ∉ onlyFriend mine theirs)) ∧
    (∀ r : Release, r.masterId = 0 →
      r ∉ overlapOf mine theirs ∧ r ∉ onlyMe mine theirs ∧
        r ∉ onlyFriend mine theirs) ∧
    (overlapOf mine theirs).length + (onlyMe mine theirs).length =
      (mine.filter (fun r => r.masterId ≠ 0)).length := by
  refine ⟨?_, ?_, ?_, ?_, ?_, ?_⟩
  · intro r hr hr'
    simp only [overlapOf, List.mem_filter, decide_eq_true_eq] at hr
    simp only [onlyMe, List.mem_filter, decide_eq_true_eq] at hr'
    exact hr'.2.2 hr.2
  · intro r hr hr'
    simp only [overlapOf, List.mem_filter, decide_eq_true_eq] at hr
    simp only [onlyFriend, List.mem_filter, decide_eq_true_eq] at hr'
    exact hr'.2.2 hr.2
  · intro r hr h0
    simp only [overlapOf, onlyMe, List.mem_filter, decide_eq_true_eq]
    constructor
    · rintro ⟨_, hin⟩ ⟨_, _, hout⟩
      exact hout hin
    · intro hnot
      refine ⟨hr, ?_⟩
      by_contra hout
      exact hnot ⟨hr, h0, hout⟩
  · intro r hr h0
    simp only [onlyFriend, List.mem_filter, decide_eq_true_eq]
    constructor
    · rintro hin ⟨_, _, hout⟩
      exact hout hin
    · intro hnot
      by_contra hout
      exact hnot ⟨hr, h0, hout⟩
  · intro r h0
    refine ⟨?_, ?_, ?_⟩
    · intro hr
      simp only [overlapOf, List.mem_filter, decide_eq_true_eq] at hr
      exact overlapIds_nonzero mine theirs _ hr.2 h0
    · intro hr
      simp only [onlyMe, List.mem_filter, decide_eq_true_eq] at hr
      exact hr.2.1 h0
    · intro hr
      simp only [onlyFriend, List.mem_filter, decide_eq_true_eq] at hr
      exact hr.2.1 h0
  · exact length_filter_split (overlapIds mine theirs)
      (overlapIds_nonzero mine theirs) mine

/-- Claim C3 witness: in the comparison of `[(1,1), (2,2)]` against
`[(3,2)]`, the item with master id 2 is in the overlap partition,
obtained through the exactly-one-side of the theorem. -/
theorem comparator_partition_witness :
    (⟨2, 2⟩ : Release) ∈ overlapOf [⟨1, 1⟩, ⟨2, 2⟩] [⟨3, 2⟩] :=
  ((comparator_partition [⟨1, 1⟩, ⟨2, 2⟩] [⟨3, 2⟩]).2.2.1 ⟨2, 2⟩
    (by decide) (by decide)).mpr (by decide)

/-- Claim C4, counterexample: the denominator `new Set([...myMasterIds,
...friendMasterIds])` keeps the null/zero master-id key, so
self-comparing a non-empty collection that holds one item with master
id 5 (non-null) and one with a null master id scores
`round(100 * 1 / 2) = 50`, not 100. -/
theorem c4_counterexample :
    ([⟨1, 5⟩, ⟨2, 0⟩] : List Release) ≠ [] ∧
    (⟨1, 5⟩ : Release) ∈ ([⟨1, 5⟩, ⟨2, 0⟩] : List Release) ∧
    (⟨1, 5⟩ : Release).masterId ≠ 0 ∧
    compatibilityScore [⟨1, 5⟩, ⟨2, 0⟩] [⟨1, 5⟩, ⟨2, 0⟩] = 50 ∧
    (50 : ℤ) ≠ 100 := by
  have h1 : (overlapIds [⟨1, 5⟩, ⟨2, 0⟩] [⟨1, 5⟩, ⟨2, 0⟩]).card = 1 := by decide
  have h2 : totalUnique [⟨1, 5⟩, ⟨2, 0⟩] [⟨1, 5⟩, ⟨2, 0⟩] = 2 := by decide
  refine ⟨by decide, by decide, by decide, ?_, by decide⟩
  unfold compatibilityScore
  rw [h1, h2, if_pos (by norm_num)]
  unfold jsRound
  norm_num

/-- Claim C4 (amended): self-comparison scores exactly 100 for every
non-empty collection ALL of whose items carry a non-null master id.
The original claim required only one non-null master id, but the
score's denominator is built from the raw master-id sets with the
null/zero key retained, so any null-master-id item inflates the
denominator and drops the self-score below 100. -/
theorem self_score_100 (A : List Release) (hne : A ≠ [])
    (hall : ∀ r ∈ A, r.masterId ≠ 0) :
    compatibilityScore A A = 100 := by
  have hids : ∀ id ∈ idsOf A, id ≠ 0 := by
    intro id hid
    rw [idsOf, List.mem_toFinset, List.mem_map] at hid
    obtain ⟨r, hr, rfl⟩ := hid
    exact hall r hr
  have hov : overlapIds A A = idsOf A := by
    apply Finset.filter_true_of_mem
    intro id hid
    exact ⟨hids id hid, hid⟩
  have hcard : 0 < (idsOf A).card := by
    rcases A with _ | ⟨r, rest⟩
    · exact absurd rfl hne
    · apply Finset.card_pos.mpr
      exact ⟨r.masterId, by simp [idsOf]⟩
  have htu : totalUnique A A = (idsOf A).card := by
    rw [totalUnique, Finset.union_self]
  unfold compatibilityScore
  rw [htu, hov, if_pos hcard]
  have hQ : ((idsOf A).card : ℚ) ≠ 0 := by
    exact_mod_cast Nat.pos_iff_ne_zero.mp hcard
  rw [div_self hQ, one_mul]
  unfold jsRound
  norm_num

/-- Claim C4 witness for the amended theorem: a singleton collection
with a non-null master id self-scores 100. -/
theorem self_score_100_witness :
    compatibilityScore [⟨1, 5⟩] [⟨1, 5⟩] = 100 :=
  self_score_100 [⟨1, 5⟩] (by decide) (by decide)

/-! ## Claims about the trade matcher -/

theorem mem_wantIds (ws : List Want) (id : Nat) :
    id ∈ wantIds ws ↔ id ≠ 0 ∧ ∃ w ∈ ws, w.masterId = id := by
  unfold wantIds
  rw [List.mem_toFinset, List.mem_filter]
  simp only [List.mem_map, decide_eq_true_eq]
  constructor
  · rintro ⟨⟨w, hw, rfl⟩, hne⟩
    exact ⟨hne, w, hw, rfl⟩
  · rintro ⟨hne, w, hw, rfl⟩
    exact ⟨⟨w, hw, rfl⟩, hne⟩

theorem find?_first {α : Type} (p : α → Bool) (l : List α) (a : α)
    (h : l.find? p = some a) :
    ∃ l1 l2, l = l1 ++ a :: l2 ∧ p a = true ∧ ∀ x ∈ l1, p x = false := by
  induction l with
  | nil => exact absurd h (by simp)
  | cons x xs ih =>
    cases hp : p x with
    | true =>
      rw [List.find?_cons_of_pos _ hp] at h
      exact ⟨[], xs, by simp [Option.some.inj h], Option.some.inj h ▸ hp, by simp⟩
    | false =>
      rw [List.find?_cons_of_neg _ (by simp [hp])] at h
      obtain ⟨l1, l2, rfl, hpa, hall⟩ := ih h
      refine ⟨x :: l1, l2, rfl, hpa, ?_⟩
      intro y hy
      rcases List.mem_cons.mp hy with rfl | hy'
      · exact hp
      · exact hall y hy'

/-- Claim C8: an item of `myCollection` appears in the offer list iff
some wantlist entry carries the same non-null master id (an entry whose
master id is null/zero has no master id present and never matches —
the null key is dropped from the wantlist join set), and every produced
opportunity pairs the item with the FIRST wantlist entry, in wantlist
order, whose master id matches. -/
theorem trade_offers_spec (coll : List Release) (ws : List Want) :
    (∀ i ∈ coll,
      ((∃ mw, (i, mw) ∈ offers coll ws) ↔
        ∃ w ∈ ws, w.masterId ≠ 0 ∧ w.masterId = i.masterId)) ∧
    (∀ i mw, (i, mw) ∈ offers coll ws →
      ∃ w l1 l2, mw = some w ∧ ws = l1 ++ w :: l2 ∧
        w.masterId = i.masterId ∧ ∀ w' ∈ l1, w'.masterId ≠ i.masterId) := by
  constructor
  · intro i hi
    constructor
    · rintro ⟨mw, hmw⟩
      unfold offers at hmw
      rw [List.mem_map] at hmw
      obtain ⟨r, hr, hpair⟩ := hmw
      have hri : r = i := congrArg Prod.fst hpair
      subst hri
      rw [List.mem_filter, decide_eq_true_eq] at hr
      obtain ⟨hne, w, hw, hwid⟩ := (mem_wantIds ws r.masterId).mp hr.2
      exact ⟨w, hw, hwid.symm ▸ hne, hwid⟩
    · rintro ⟨w, hw, hne, heq⟩
      refine ⟨ws.find? (fun w' => w'.masterId == i.masterId), ?_⟩
      unfold offers
      rw [List.mem_map]
      refine ⟨i, ?_, rfl⟩
      rw [List.mem_filter, decide_eq_true_eq]
      exact ⟨hi, (mem_wantIds ws i.masterId).mpr ⟨heq ▸ hne, w, hw, heq⟩⟩
  · intro i mw hmw
    unfold offers at hmw
    rw [List.mem_map] at hmw
    obtain ⟨r, hr, hpair⟩ := hmw
    have hri : r = i := congrArg Prod.fst hpair
    subst hri
    have hmw' : mw = ws.find? (fun w' => w'.masterId == r.masterId) :=
      (congrArg Prod.snd hpair).symm
    rw [List.mem_filter, decide_eq_true_eq] at hr
    obtain ⟨hne, w, hw, hwid⟩ := (mem_wantIds ws r.masterId).mp hr.2
    have hsome : (ws.find? (fun w' => w'.masterId == r.masterId)).isSome := by
      rw [List.find?_isSome]
      exact ⟨w, hw, by simp [hwid]⟩
    obtain ⟨w0, hw0⟩ := Option.isSome_iff_exists.mp hsome
    obtain ⟨l1, l2, hsplit, hpw0, hl1⟩ := find?_first _ ws w0 hw0
    refine ⟨w0, l1, l2, by rw [hmw', hw0], hsplit, by simpa using hpw0, ?_⟩
    intro w' hw'
    have := hl1 w' hw'
    simpa using this

/-- Claim C8 witness: the single item with master id 7 is offered when
the friend's wantlist wants master 7. -/
theorem trade_offers_spec_witness :
    ∃ mw, ((⟨1, 7⟩ : Release), mw) ∈ offers [⟨1, 7⟩] [⟨9, 7⟩] :=
  ((trade_offers_spec [⟨1, 7⟩] [⟨9, 7⟩]).1 ⟨1, 7⟩ (by decide)).mpr
    ⟨⟨9, 7⟩, by decide, by decide, by decide⟩

/-- Claim C6, counterexample: both wantlist fetches run inside a single
try/catch, so a THROWN failure of the friend-wantlist fetch also
empties the my direction: with my wantlist containing master 7 and the
friend owning a master-7 item, the code yields ([], []) although
independence demands the my direction still compute its match (as it
does when the friend fetch merely returns a non-ok response). -/
theorem c6_counterexample :
    runTrades .thrown (.ok [⟨9, 7⟩]) [] [⟨1, 7⟩] = ([], []) ∧
    runTrades .httpError (.ok [⟨9, 7⟩]) [] [⟨1, 7⟩] =
      ([], [(⟨1, 7⟩, some ⟨9, 7⟩)]) ∧
    (([], [((⟨1, 7⟩ : Release), some (⟨9, 7⟩ : Want))]) :
        List (Release × Option Want) × List (Release × Option Want)) ≠
      ([], []) := by
  decide

/-- Claim C6 (amended): failure isolation holds for the second fetch and
for non-thrown failures of the first: a failed my-wantlist fetch (thrown
or non-ok) never affects the friend direction; a non-ok friend response
empties only the friend direction, leaving the my direction as if that
fetch had succeeded; but a THROWN friend-fetch failure empties BOTH
directions, because the two sequential fetches share one try/catch. In
every case the comparison itself completes with two lists. -/
theorem run_trades_isolation (friendRes myRes : FetchOutcome)
    (myColl theirColl : List Release) (fws mws : List Want) :
    (runTrades friendRes .thrown myColl theirColl).1 =
      (runTrades friendRes (.ok mws) myColl theirColl).1 ∧
    (runTrades friendRes .httpError myColl theirColl).1 =
      (runTrades friendRes (.ok mws) myColl theirColl).1 ∧
    (runTrades .httpError myRes myColl theirColl).2 =
      (runTrades (.ok fws) myRes myColl theirColl).2 ∧
    runTrades .thrown myRes myColl theirColl = ([], []) := by
  cases friendRes <;> cases myRes <;> simp [runTrades]

/-! ## Claims about the paginated fetcher -/

theorem fetchPages_fail (reader : Nat → Option Page) :
    ∀ (count p : Nat) (acc : List Release),
      (∃ q, p ≤ q ∧ q < p + count ∧ reader q = none) →
      (fetchPages reader count p acc).1 = none := by
  intro count
  induction count with
  | zero =>
    rintro p acc ⟨q, hq1, hq2, _⟩
    omega
  | succ n ih =>
    rintro p acc ⟨q, hq1, hq2, hq3⟩
    cases hr : reader p with
    | none => simp [fetchPages, hr]
    | some pg =>
      have hqp : q ≠ p := by
        intro h
        rw [h, hr] at hq3
        exact Option.noConfusion hq3
      simp only [fetchPages, hr]
      exact ih (p + 1) (acc ++ pg.releases) ⟨q, by omega, by omega, hq3⟩

theorem fetchPages_ok (reader : Nat → Option Page)
    (hsize : ∀ q pg, reader q = some pg → pg.releases.length ≤ 100) :
    ∀ (count p : Nat) (acc : List Release),
      (∀ q, p ≤ q → q < p + count → (reader q).isSome) →
      ∃ rel, fetchPages reader count p acc =
          (some rel,
            (List.range' p count).flatMap (fun q => [.request q, .delay 100])) ∧
        rel.length ≤ acc.length + 100 * count := by
  intro count
  induction count with
  | zero =>
    intro p acc _
    exact ⟨acc, by simp [fetchPages], by omega⟩
  | succ n ih =>
    intro p acc hok
    obtain ⟨pg, hr⟩ := Option.isSome_iff_exists.mp (hok p (le_refl p) (by omega))
    obtain ⟨rel, hrec, hlen⟩ := ih (p + 1) (acc ++ pg.releases)
      (fun q hq1 hq2 => hok q (by omega) (by omega))
    refine ⟨rel, ?_, ?_⟩
    · simp only [fetchPages, hr, hrec, List.range'_succ]
      simp
    · have := hsize p pg hr
      simp only [List.length_append] at hlen
      omega

/-- The reader of the counterexample run: page 1 succeeds reporting 200
total items (so two pages are to be fetched), page 2 fails. -/
def c1Reader : Nat → Option Page :=
  fun p => if p = 1 then some ⟨[⟨1, 1⟩], 200⟩ else none

/-- Claim C1, counterexample: a collection fetch in which page 1
succeeds (reporting 200 items, hence pagesToFetch = 2) and page 2 fails
returns the route's error response (`none`, the 500 "Failed to fetch
collection" branch), NOT a partial result: the whole loop runs inside
one try/catch. -/
theorem c1_counterexample :
    (c1Reader 1).isSome = true ∧ c1Reader 2 = none ∧
    2 ≤ pagesToFetch 200 ∧
    fetchCollection c1Reader = (none, [.request 1, .request 2]) := by
  decide

/-- Claim C1 (amended): when page 1 succeeds and any later needed page
(2..pagesToFetch) fails, the fetcher ABORTS and returns an error
response — never a partial result; a partial `itemsFetched <
totalReported` outcome arises only from the maxPages cap, not from
failure recovery. -/
theorem fetch_aborts_on_page_failure (reader : Nat → Option Page) (fp : Page)
    (h1 : reader 1 = some fp)
    (hfail : ∃ q, 2 ≤ q ∧ q ≤ pagesToFetch fp.paginationItems ∧ reader q = none) :
    (fetchCollection reader).1 = none := by
  obtain ⟨q, h2, hle, hnone⟩ := hfail
  have hrec := fetchPages_fail reader (pagesToFetch fp.paginationItems - 1) 2
    fp.releases ⟨q, h2, by omega, hnone⟩
  unfold fetchCollection
  rw [h1]
  simp only [Option.map_eq_none']
  exact hrec

/-- Claim C1 witness for the amended theorem: the concrete failing
reader indeed produces the error response. -/
theorem fetch_aborts_on_page_failure_witness :
    (fetchCollection c1Reader).1 = none :=
  fetch_aborts_on_page_failure c1Reader ⟨[⟨1, 1⟩], 200⟩ (by decide)
    ⟨2, by decide, by decide, by decide⟩

/-- Claim C9: the fetcher requests page 1 first to learn the reported
total, computes `pagesToFetch = min(ceil(total / 100), 5)`, then
requests pages 2..pagesToFetch strictly in order with the 100 ms delay
after each (a serial trace, no interleaving); when every page carries at
most 100 (= pageSize) items, a successful fetch returns at most 500
items and echoes the reported total. -/
theorem fetch_pagination_spec (reader : Nat → Option Page) (fp : Page)
    (h1 : reader 1 = some fp)
    (hsize : ∀ q pg, reader q = some pg → pg.releases.length ≤ 100)
    (hok : ∀ q, 2 ≤ q → q ≤ pagesToFetch fp.paginationItems → (reader q).isSome) :
    pagesToFetch fp.paginationItems = min ((fp.paginationItems + 99) / 100) 5 ∧
    ∃ res, fetchCollection reader =
        (some res,
          .request 1 :: (List.range' 2 (pagesToFetch fp.paginationItems - 1)).flatMap
            (fun q => [.request q, .delay 100])) ∧
      res.total = fp.paginationItems ∧
      res.fetched = res.releases.length ∧
      res.fetched ≤ 500 := by
  refine ⟨rfl, ?_⟩
  obtain ⟨rel, hrec, hlen⟩ := fetchPages_ok reader hsize
    (pagesToFetch fp.paginationItems - 1) 2 fp.releases
    (fun q hq1 hq2 => hok q hq1 (by omega))
  refine ⟨⟨rel, fp.paginationItems, rel.length⟩, ?_, rfl, rfl, ?_⟩
  · unfold fetchCollection
    rw [h1]
    simp only [hrec, Option.map_some']
  · have hfp : fp.releases.length ≤ 100 := hsize 1 fp h1
    have hN : pagesToFetch fp.paginationItems ≤ 5 := min_le_right _ _
    show rel.length ≤ 500
    omega

/-- The reader of the success-path witness: every page returns a single
item and reports 250 total items (so three pages are fetched). -/
def c9Reader : Nat → Option Page :=
  fun p => some ⟨[⟨p, p⟩], 250⟩

/-- Claim C9 witness: with 250 reported items the fetcher requests pages
1, 2, 3 with delays after pages 2 and 3, and returns 3 ≤ 500 items. -/
theorem fetch_pagination_spec_witness :
    ∃ res, fetchCollection c9Reader =
        (some res,
          .request 1 :: (List.range' 2 (pagesToFetch 250 - 1)).flatMap
            (fun q => [.request q, .delay 100])) ∧
      res.total = 250 ∧
      res.fetched = res.releases.length ∧
      res.fetched ≤ 500 := by
  have h := fetch_pagination_spec c9Reader ⟨[⟨1, 1⟩], 250⟩ rfl ?hs ?hk
  case hs =>
    intro q pg hq
    cases Option.some.inj hq
    simp
  case hk =>
    intro q _ _
    rfl
  exact h.2

end DeepCogs
